import Mathlib

/-!
Verification of the connection-search core of the `proyecto-horarios-backend`
transit-schedule API (FastAPI + SQLAlchemy, `src/main.py`,
`src/utils/validators.py`, `src/schemas.py`).

Python strings are modelled as `List Char` (`PyStr`).  Times travel through
the system as `HH:MM` strings and are parsed at the point of use, exactly as
in the source: `int(...)`-based splitting in the validators and endpoints,
`datetime.strptime(..., "%H:%M")` in the connection search.  HTTP exceptions
are modelled with `Except ApiError`; an uncaught Python exception (e.g. a
`ValueError` escaping `str_to_minutos`) is modelled as `ApiError.serverError`.
-/

/-- Python `str` modelled as a list of characters. -/
abbrev PyStr := List Char

/-- Digit value of a character (as an integer; meaningful when `isDig`). -/
def dval (c : Char) : Int := (c.toNat : Int) - 48

/-- ASCII digit test, the fragment of Python `int()` digit recognition the
    repository's data can exercise. -/
def isDig (c : Char) : Bool := decide (48 ≤ c.toNat) && decide (c.toNat ≤ 57)

/-- ASCII whitespace stripped by Python `int(str)` and `str.strip()`. -/
def isPyWs (c : Char) : Bool :=
  c.toNat == 32 || c.toNat == 9 || c.toNat == 10 ||
  c.toNat == 13 || c.toNat == 11 || c.toNat == 12

/-- Strip leading and trailing whitespace (Python `str.strip()` on ASCII). -/
def pyStrip (s : PyStr) : PyStr :=
  ((s.dropWhile isPyWs).reverse.dropWhile isPyWs).reverse

/-- Read a digit string that may contain single underscores between digits,
    accumulating onto `acc` — the tail of Python `int(str)` digit parsing. -/
def pyDigits (acc : Int) : PyStr → Option Int
  | [] => some acc
  | c :: rest =>
    if c = '_' then
      match rest with
      | [] => none
      | c2 :: rest2 =>
        if isDig c2 then pyDigits (acc * 10 + dval c2) rest2 else none
    else if isDig c then pyDigits (acc * 10 + dval c) rest else none

/-- `pyInt?` after whitespace stripping: optional sign, then a non-empty
    digit run with single underscores allowed between digits. -/
def pyIntCore : PyStr → Option Int
  | [] => none
  | c :: rest =>
    if c = '+' then
      match rest with
      | [] => none
      | c2 :: r2 => if isDig c2 then pyDigits (dval c2) r2 else none
    else if c = '-' then
      match rest with
      | [] => none
      | c2 :: r2 =>
        if isDig c2 then (pyDigits (dval c2) r2).map (fun n => -n) else none
    else if isDig c then pyDigits (dval c) rest else none

/-- Python `int(s)` for `str` arguments: optional surrounding whitespace,
    optional sign, a non-empty digit run with single underscores allowed
    between digits.  `none` models the raised `ValueError`. -/
def pyInt? (s : PyStr) : Option Int := pyIntCore (pyStrip s)

/-- Python `s.split(sep)` for a single-character separator. -/
def splitOnC (sep : Char) : PyStr → List PyStr
  | [] => [[]]
  | c :: rest =>
    let r := splitOnC sep rest
    if c = sep then [] :: r
    else
      match r with
      | h :: t => (c :: h) :: t
      | [] => [[c]]

/-- `time_to_minutes` / `str_to_minutos` from the source:
    `h, m = map(int, s.split(":")); return h*60 + m`.
    `none` models the `ValueError` raised on malformed input. -/
def time_to_minutes? (s : PyStr) : Option Int :=
  match splitOnC ':' s with
  | [hs, ms] => do
    let h ← pyInt? hs
    let m ← pyInt? ms
    some (h * 60 + m)
  | _ => none

/-- The inline `hora_actual` validation + conversion shared by
    `get_horarios_directos` and `calcular_conexiones` in `src/main.py`:
    split on `":"` into exactly two parts, `int(...)` both, require
    `0 <= h <= 23` and `0 <= m <= 59`; the later `str_to_minutos` call then
    yields `h*60 + m`.  `none` models the 400 rejection. -/
def parseHoraActual? (s : PyStr) : Option Int :=
  match splitOnC ':' s with
  | [p0, p1] => do
    let h ← pyInt? p0
    let m ← pyInt? p1
    if 0 ≤ h ∧ h ≤ 23 ∧ 0 ≤ m ∧ m ≤ 59 then some (h * 60 + m) else none
  | _ => none

/-- Up to two leading digits (maximal munch), as `strptime`'s `%H`/`%M`. -/
def take2Digits : PyStr → Option (Int × PyStr)
  | [] => none
  | [c] => if isDig c then some (dval c, []) else none
  | c1 :: c2 :: rest =>
    if isDig c1 then
      if isDig c2 then some (10 * dval c1 + dval c2, rest)
      else some (dval c1, c2 :: rest)
    else none

/-- `datetime.strptime(s, "%H:%M")`, reduced to minutes since midnight
    (the parsed datetimes are compared and subtracted only within one day).
    `none` models the raised `ValueError`. -/
def strptime? (s : PyStr) : Option Int := do
  let (h, r1) ← take2Digits s
  if h ≤ 23 then
    match r1 with
    | ':' :: r2 => do
      let (m, r3) ← take2Digits r2
      if m ≤ 59 then if r3 = [] then some (h * 60 + m) else none else none
    | _ => none
  else none

/-- Well-formedness invariant of stored trip times, enforced on every write
    by the pydantic schema (`pattern=r"^\d\x7b2\x7d:\d\x7b2\x7d$"` plus the
    `valid_time` range validator in `src/schemas.py`). -/
def validTime (s : PyStr) : Bool :=
  match s with
  | [h1, h2, c, m1, m2] =>
    isDig h1 && isDig h2 && (c == ':') && isDig m1 && isDig m2 &&
    decide (10 * dval h1 + dval h2 ≤ 23) && decide (10 * dval m1 + dval m2 ≤ 59)
  | _ => false

/-- Minute-of-day value of a well-formed `HH:MM` string (junk `0` otherwise). -/
def timeVal (s : PyStr) : Int :=
  match s with
  | [h1, h2, _, m1, m2] => (10 * dval h1 + dval h2) * 60 + (10 * dval m1 + dval m2)
  | _ => 0

-- ### Basic facts about the character-level parsers

theorem isDig_bounds {c : Char} (h : isDig c = true) :
    48 ≤ c.toNat ∧ c.toNat ≤ 57 := by
  unfold isDig at h
  simp only [Bool.and_eq_true, decide_eq_true_eq] at h
  exact h

theorem isDig_not_ws {c : Char} (h : isDig c = true) : isPyWs c = false := by
  obtain ⟨h1, h2⟩ := isDig_bounds h
  unfold isPyWs
  simp only [Bool.or_eq_false_iff, beq_eq_false_iff_ne, ne_eq]
  omega

theorem isDig_ne_colon {c : Char} (h : isDig c = true) : ¬(c = ':') := by
  intro he
  obtain ⟨_, h2⟩ := isDig_bounds h
  subst he
  simp at h2

theorem isDig_ne_underscore {c : Char} (h : isDig c = true) : ¬(c = '_') := by
  intro he
  obtain ⟨_, h2⟩ := isDig_bounds h
  subst he
  simp at h2

theorem isDig_ne_plus {c : Char} (h : isDig c = true) : ¬(c = '+') := by
  intro he
  obtain ⟨h1, _⟩ := isDig_bounds h
  subst he
  simp at h1

theorem isDig_ne_minus {c : Char} (h : isDig c = true) : ¬(c = '-') := by
  intro he
  obtain ⟨h1, _⟩ := isDig_bounds h
  subst he
  simp at h1

theorem pyStrip_two_digits {c1 c2 : Char} (h1 : isDig c1 = true)
    (h2 : isDig c2 = true) : pyStrip [c1, c2] = [c1, c2] := by
  unfold pyStrip
  simp [List.dropWhile, isDig_not_ws h1, isDig_not_ws h2]

theorem pyDigits_single {c : Char} (acc : Int) (h : isDig c = true) :
    pyDigits acc [c] = some (acc * 10 + dval c) := by
  simp [pyDigits, isDig_ne_underscore h, h]

theorem pyInt_two_digits {c1 c2 : Char} (h1 : isDig c1 = true)
    (h2 : isDig c2 = true) : pyInt? [c1, c2] = some (10 * dval c1 + dval c2) := by
  unfold pyInt?
  rw [pyStrip_two_digits h1 h2]
  simp only [pyIntCore]
  rw [if_neg (isDig_ne_plus h1), if_neg (isDig_ne_minus h1), if_pos h1,
    pyDigits_single _ h2]
  congr 1
  ring

theorem splitOnC_validTime {h1 h2 m1 m2 : Char} (d1 : isDig h1 = true)
    (d2 : isDig h2 = true) (d3 : isDig m1 = true) (d4 : isDig m2 = true) :
    splitOnC ':' [h1, h2, ':', m1, m2] = [[h1, h2], [m1, m2]] := by
  unfold splitOnC
  simp [isDig_ne_colon d1, isDig_ne_colon d2, isDig_ne_colon d3,
        isDig_ne_colon d4, splitOnC]

/-- On a well-formed stored time, `time_to_minutes` succeeds and computes
    the minute-of-day value. -/
theorem time_to_minutes_of_validTime {s : PyStr} (h : validTime s = true) :
    time_to_minutes? s = some (timeVal s) := by
  unfold validTime at h
  split at h
  case h_2 => exact absurd h (by simp)
  case h_1 h1 h2 c m1 m2 =>
    simp only [Bool.and_eq_true, beq_iff_eq, decide_eq_true_eq] at h
    obtain ⟨⟨⟨⟨⟨⟨d1, d2⟩, hc⟩, d3⟩, d4⟩, _⟩, _⟩ := h
    subst hc
    unfold time_to_minutes?
    rw [splitOnC_validTime d1 d2 d3 d4]
    simp only [pyInt_two_digits d1 d2, pyInt_two_digits d3 d4, Option.bind_eq_bind,
      Option.some_bind]
    unfold timeVal
    rfl

/-- On a well-formed stored time, `strptime` succeeds and computes the
    minute-of-day value. -/
theorem strptime_of_validTime {s : PyStr} (h : validTime s = true) :
    strptime? s = some (timeVal s) := by
  unfold validTime at h
  split at h
  case h_2 => exact absurd h (by simp)
  case h_1 h1 h2 c m1 m2 =>
    simp only [Bool.and_eq_true, beq_iff_eq, decide_eq_true_eq] at h
    obtain ⟨⟨⟨⟨⟨⟨d1, d2⟩, hc⟩, d3⟩, d4⟩, hh⟩, hm⟩ := h
    subst hc
    unfold strptime? take2Digits
    simp only [d1, d2, if_true, Option.bind_eq_bind, Option.some_bind, if_pos hh]
    simp only [take2Digits, d3, d4, if_true, Option.some_bind]
    rw [if_pos hm]
    unfold timeVal
    rfl

/-- Inversion of a successful `hora_actual` validation: the exact shape the
    code accepts (two colon-separated Python integers with the hour and
    minute in range; zero-padding is NOT required). -/
theorem parseHoraActual_inv {s : PyStr} {v : Int}
    (h : parseHoraActual? s = some v) :
    ∃ p0 p1 hr mn, splitOnC ':' s = [p0, p1] ∧ pyInt? p0 = some hr ∧
      pyInt? p1 = some mn ∧ 0 ≤ hr ∧ hr ≤ 23 ∧ 0 ≤ mn ∧ mn ≤ 59 ∧
      v = hr * 60 + mn := by
  unfold parseHoraActual? at h
  split at h
  case h_2 => exact absurd h (by simp)
  case h_1 p0 p1 heq =>
    cases hp0 : pyInt? p0 with
    | none => rw [hp0] at h; simp at h
    | some hv =>
      cases hp1 : pyInt? p1 with
      | none => rw [hp0, hp1] at h; simp at h
      | some mv =>
        rw [hp0, hp1] at h
        simp only [Option.bind_eq_bind, Option.some_bind] at h
        split at h
        · rename_i hrange
          injection h with hveq
          exact ⟨p0, p1, hv, mv, heq, hp0, hp1, hrange.1, hrange.2.1,
            hrange.2.2.1, hrange.2.2.2, hveq.symm⟩
        · simp at h

/-- A `parseHoraActual?` success is in particular a `str_to_minutos` success
    with the same value (the endpoints recompute the minutes after
    validating). -/
theorem time_to_minutes_of_parseHoraActual {s : PyStr} {v : Int}
    (h : parseHoraActual? s = some v) : time_to_minutes? s = some v := by
  obtain ⟨p0, p1, hr, mn, heq, hp0, hp1, _, _, _, _, hv⟩ := parseHoraActual_inv h
  unfold time_to_minutes?
  rw [heq]
  simp [hp0, hp1, hv]

/-- The value accepted for `hora_actual` lies in `[0, 1439]`. -/
theorem parseHoraActual_range {s : PyStr} {v : Int}
    (h : parseHoraActual? s = some v) : 0 ≤ v ∧ v ≤ 1439 := by
  obtain ⟨p0, p1, hr, mn, heq, hp0, hp1, h1, h2, h3, h4, hv⟩ := parseHoraActual_inv h
  omega

-- ### Lexicographic order on time strings (SQL `ORDER BY hora_salida`)

/-- Byte-wise lexicographic `≤` on character lists: the collation the store
    applies when ordering `VARCHAR` time columns. -/
def chLe : PyStr → PyStr → Bool
  | [], _ => true
  | _ :: _, [] => false
  | a :: as, b :: bs =>
    if a.toNat < b.toNat then true
    else if b.toNat < a.toNat then false
    else chLe as bs

theorem chLe_total (s t : PyStr) : chLe s t = true ∨ chLe t s = true := by
  induction s generalizing t with
  | nil => left; rfl
  | cons a as ih =>
    cases t with
    | nil => right; rfl
    | cons b bs =>
      by_cases hab : a.toNat < b.toNat
      · left; simp [chLe, hab]
      · by_cases hba : b.toNat < a.toNat
        · right; simp [chLe, hba]
        · rcases ih bs with h | h
          · left; simp [chLe, hab, hba, h]
          · right; simp [chLe, hab, hba, h]

theorem chLe_cons_iff {a b : Char} {as bs : PyStr} :
    chLe (a :: as) (b :: bs) = true ↔
      a.toNat < b.toNat ∨ (a.toNat = b.toNat ∧ chLe as bs = true) := by
  simp only [chLe]
  by_cases hab : a.toNat < b.toNat
  · simp [hab]
  · by_cases hba : b.toNat < a.toNat
    · simp only [hab, if_false, hba, if_true]
      constructor
      · intro h; exact absurd h (by simp)
      · intro h
        exfalso
        rcases h with h | ⟨h, _⟩
        · exact h
        · omega
    · have heq : a.toNat = b.toNat := by omega
      simp [hab, hba, heq]

theorem chLe_trans {s t u : PyStr} (h1 : chLe s t = true)
    (h2 : chLe t u = true) : chLe s u = true := by
  induction s generalizing t u with
  | nil => rfl
  | cons a as ih =>
    cases t with
    | nil => simp [chLe] at h1
    | cons b bs =>
      cases u with
      | nil => simp [chLe] at h2
      | cons c cs =>
        rw [chLe_cons_iff] at h1 h2 ⊢
        rcases h1 with h1 | ⟨e1, r1⟩
        · rcases h2 with h2 | ⟨e2, r2⟩
          · left; omega
          · left; omega
        · rcases h2 with h2 | ⟨e2, r2⟩
          · left; omega
          · right; exact ⟨by omega, ih r1 r2⟩

theorem chLe_nil : chLe [] [] = true := rfl

theorem dval_bounds {c : Char} (h : isDig c = true) : 0 ≤ dval c ∧ dval c ≤ 9 := by
  obtain ⟨h1, h2⟩ := isDig_bounds h
  unfold dval
  omega

theorem validTime_inv {s : PyStr} (h : validTime s = true) :
    ∃ c1 c2 c3 c4, s = [c1, c2, ':', c3, c4] ∧ isDig c1 = true ∧
      isDig c2 = true ∧ isDig c3 = true ∧ isDig c4 = true ∧
      10 * dval c1 + dval c2 ≤ 23 ∧ 10 * dval c3 + dval c4 ≤ 59 := by
  unfold validTime at h
  split at h
  case h_2 => exact absurd h (by simp)
  case h_1 c1 c2 c c3 c4 =>
    simp only [Bool.and_eq_true, beq_iff_eq, decide_eq_true_eq] at h
    obtain ⟨⟨⟨⟨⟨⟨d1, d2⟩, hc⟩, d3⟩, d4⟩, hh⟩, hm⟩ := h
    subst hc
    exact ⟨c1, c2, c3, c4, rfl, d1, d2, d3, d4, hh, hm⟩

/-- On well-formed (zero-padded, in-range) `HH:MM` strings, the store's
    lexicographic ordering agrees with the minute-of-day ordering. -/
theorem chLe_iff_timeVal_le {s t : PyStr} (hs : validTime s = true)
    (ht : validTime t = true) : (chLe s t = true ↔ timeVal s ≤ timeVal t) := by
  obtain ⟨a1, a2, a3, a4, hseq, da1, da2, da3, da4, hha, hma⟩ := validTime_inv hs
  obtain ⟨b1, b2, b3, b4, hteq, db1, db2, db3, db4, hhb, hmb⟩ := validTime_inv ht
  subst hseq; subst hteq
  obtain ⟨la1, ua1⟩ := isDig_bounds da1
  obtain ⟨la2, ua2⟩ := isDig_bounds da2
  obtain ⟨la3, ua3⟩ := isDig_bounds da3
  obtain ⟨la4, ua4⟩ := isDig_bounds da4
  obtain ⟨lb1, ub1⟩ := isDig_bounds db1
  obtain ⟨lb2, ub2⟩ := isDig_bounds db2
  obtain ⟨lb3, ub3⟩ := isDig_bounds db3
  obtain ⟨lb4, ub4⟩ := isDig_bounds db4
  simp only [dval] at hha hma hhb hmb
  simp only [chLe_cons_iff, chLe_nil, timeVal, dval, lt_self_iff_false,
    false_or, eq_self_iff_true, true_and, and_true]
  omega

theorem timeVal_bounds {s : PyStr} (h : validTime s = true) :
    0 ≤ timeVal s ∧ timeVal s ≤ 1439 := by
  obtain ⟨c1, c2, c3, c4, hseq, d1, d2, d3, d4, hh, hm⟩ := validTime_inv h
  subst hseq
  obtain ⟨l1, u1⟩ := dval_bounds d1
  obtain ⟨l2, u2⟩ := dval_bounds d2
  obtain ⟨l3, u3⟩ := dval_bounds d3
  obtain ⟨l4, u4⟩ := dval_bounds d4
  simp only [timeVal]
  omega

-- ### Data model (`src/models.py`), mirroring the SQLAlchemy tables

/-- A bus line (table `lineas`): a named carrier owning routes. -/
structure Linea where
  id : Nat
  nombre : PyStr
deriving DecidableEq

/-- A route (table `recorridos`): a directed origin→destination path
    belonging to one line. -/
structure Recorrido where
  id : Nat
  origen : PyStr
  destino : PyStr
  linea_id : Nat
deriving DecidableEq

/-- A scheduled trip (table `horarios`) on a route for one day-type. -/
structure Horario where
  id : Nat
  tipo_dia : PyStr
  hora_salida : PyStr
  hora_llegada : PyStr
  recorrido_id : Nat
  directo : Bool
deriving DecidableEq

/-- The read-only schedule store the request handlers query. -/
structure DB where
  lineas : List Linea
  recorridos : List Recorrido
  horarios : List Horario
deriving DecidableEq

/-- `schemas.Conexion` (`src/schemas.py`, lines 75–80): the response model of
    `GET /conexiones/`.  It declares exactly these five fields; the extra
    keyword arguments passed at construction in `calcular_conexiones`
    (`ciudad_conexion`, `linea_a_nombre`, `linea_b_nombre`) are not declared
    on the pydantic model and are silently discarded. -/
structure Conexion where
  tramo_a_salida : PyStr
  tramo_a_llegada : PyStr
  tramo_b_salida : PyStr
  tramo_b_llegada : PyStr
  tiempo_espera_min : Int
deriving DecidableEq

/-- `schemas.HorarioConRecorrido`: the response model of
    `GET /horarios-directos/`.  The `Optional`-typed lookups in the handler
    are modelled with `Option`. -/
structure HorarioOut where
  id : Nat
  tipo_dia : PyStr
  hora_salida : PyStr
  hora_llegada : PyStr
  recorrido_id : Nat
  directo : Bool
  origen : Option PyStr
  destino : Option PyStr
  linea_nombre : Option PyStr
deriving DecidableEq

/-- Outcome of a handler: an `HTTPException` with its status, or an
    uncaught Python exception (a 500 server fault). -/
inductive ApiError where
  | badRequest (detail : String)
  | notFound (detail : String)
  | serverError
deriving DecidableEq

/-- Every stored trip carries well-formed `HH:MM` times — the invariant the
    pydantic write schemas (`HorarioBase`) establish for all rows. -/
def ValidDB (db : DB) : Prop :=
  ∀ h ∈ db.horarios, validTime h.hora_salida = true ∧
    validTime h.hora_llegada = true

-- ### Store queries and the connection search (`calcular_conexiones`)

/-- Order used by the store for `ORDER BY hora_salida` on trip rows. -/
def hsRel (a b : Horario) : Prop := chLe a.hora_salida b.hora_salida = true

instance hsRelDec : DecidableRel hsRel := fun a b =>
  inferInstanceAs (Decidable (chLe a.hora_salida b.hora_salida = true))

instance hsRelTotal : IsTotal Horario hsRel := ⟨fun _ _ => chLe_total _ _⟩

instance hsRelTrans : IsTrans Horario hsRel := ⟨fun _ _ _ => chLe_trans⟩

/-- `db.query(Recorrido).filter(origen == o, destino == d).all()`. -/
def recorridosEntre (db : DB) (o d : PyStr) : List Recorrido :=
  db.recorridos.filter (fun r => r.origen == o && r.destino == d)

/-- `db.query(Horario).filter(recorrido_id.in_(ids), tipo_dia == t)
    .order_by(hora_salida).all()` for the routes between `o` and `d`:
    the leg-A / leg-B trip lookup of `calcular_conexiones`. -/
def legTrips (db : DB) (o d tipo : PyStr) : List Horario :=
  List.insertionSort hsRel
    (db.horarios.filter (fun h =>
      ((recorridosEntre db o d).map (fun r => r.id)).contains h.recorrido_id &&
        h.tipo_dia == tipo))

/-- The inner Leg-B scan: the first trip (in stored order) whose parsed
    departure is strictly after `llegada_a`; trips whose departure fails
    `strptime` are skipped (`except ValueError: continue`).  Returns the trip
    together with its parsed departure. -/
def firstFeasibleB (llegada_a : Int) : List Horario → Option (Horario × Int)
  | [] => none
  | b :: rest =>
    match strptime? b.hora_salida with
    | none => firstFeasibleB llegada_a rest
    | some salida_b =>
      if llegada_a < salida_b then some (b, salida_b)
      else firstFeasibleB llegada_a rest

/-- Processing of one Leg-A trip inside the per-city loop: skip it when its
    departure is before `min_actual`; otherwise parse its arrival (an
    unguarded `strptime`, so failure is a server fault) and pair it with the
    first feasible Leg-B trip, recording the wait in whole minutes.
    The `ciudad_conexion` / `linea_a_nombre` / `linea_b_nombre` keyword
    arguments of the source are dropped by the `Conexion` pydantic schema and
    therefore do not appear in the constructed value. -/
def procA (min_actual : Int) (horarios_b : List Horario) (a : Horario) :
    Except ApiError (List Conexion) :=
  match time_to_minutes? a.hora_salida with
  | none => .error .serverError
  | some salida_a =>
    if salida_a < min_actual then .ok []
    else
      match strptime? a.hora_llegada with
      | none => .error .serverError
      | some llegada_a =>
        match firstFeasibleB llegada_a horarios_b with
        | none => .ok []
        | some (b, salida_b) =>
          .ok [⟨a.hora_salida, a.hora_llegada, b.hora_salida, b.hora_llegada,
                salida_b - llegada_a⟩]

/-- The `for horario_a in horarios_a` loop of one candidate city. -/
def collectA (min_actual : Int) (horarios_b : List Horario) :
    List Horario → Except ApiError (List Conexion)
  | [] => .ok []
  | a :: rest => do
    let cs ← procA min_actual horarios_b a
    let more ← collectA min_actual horarios_b rest
    .ok (cs ++ more)

/-- The `for ciudad_conexion in posibles_conexiones` loop, accumulating
    `conexiones_encontradas` across candidate cities. -/
def collectCities (db : DB) (origen destino tipo : PyStr) (min_actual : Int) :
    List PyStr → Except ApiError (List Conexion)
  | [] => .ok []
  | city :: rest => do
    let cs ← collectA min_actual (legTrips db city destino tipo)
        (legTrips db origen city tipo)
    let more ← collectCities db origen destino tipo min_actual rest
    .ok (cs ++ more)

/-- Distinct `Recorrido.origen` values unioned with distinct
    `Recorrido.destino` values (`ciudades_conocidas`; Python builds a `set`,
    whose enumeration order is unspecified — any duplicate-free enumeration
    is a faithful model). -/
def ciudadesConocidas (db : DB) : List PyStr :=
  ((db.recorridos.map (fun r => r.origen)) ++
    (db.recorridos.map (fun r => r.destino))).dedup

/-- Candidate intermediate cities: every known city except the two
    endpoints. -/
def posiblesConexiones (db : DB) (origen destino : PyStr) : List PyStr :=
  (ciudadesConocidas db).filter (fun c => !(c == origen) && !(c == destino))

/-- Sort key of the final `conexiones_encontradas.sort(...)`:
    `datetime.strptime(c.tramo_a_salida, FMT)`, compared as minutes. -/
def sortKey (c : Conexion) : Int := (strptime? c.tramo_a_salida).getD 0

def conRel (c d : Conexion) : Prop := sortKey c ≤ sortKey d

instance conRelDec : DecidableRel conRel := fun c d =>
  inferInstanceAs (Decidable (sortKey c ≤ sortKey d))

instance conRelTotal : IsTotal Conexion conRel := ⟨fun _ _ => le_total _ _⟩

instance conRelTrans : IsTrans Conexion conRel := ⟨fun _ _ _ => le_trans⟩

/-- CPython's `list.sort(key=...)` first materialises every key (raising if
    any `strptime` fails, before any reordering), then sorts stably. -/
def checkKeys : List Conexion → Option (List Int)
  | [] => some []
  | c :: rest => do
    let k ← strptime? c.tramo_a_salida
    let ks ← checkKeys rest
    some (k :: ks)

def sortConexiones (l : List Conexion) : Except ApiError (List Conexion) :=
  match checkKeys l with
  | none => .error .serverError
  | some _ => .ok (List.insertionSort conRel l)

/-- `GET /conexiones/` (`calcular_conexiones`, `src/main.py` 379–490):
    validate `hora_actual` (400 on failure), enumerate candidate cities,
    collect the greedy earliest-feasible pairings, 404 when none were found,
    else return them sorted by leg-A departure. -/
def calcular_conexiones (db : DB) (origen destino tipo_dia hora_actual : PyStr) :
    Except ApiError (List Conexion) :=
  match parseHoraActual? hora_actual with
  | none => .error (.badRequest "hora_actual debe ser HH:MM entre 00:00 y 23:59")
  | some min_actual =>
    match collectCities db origen destino tipo_dia min_actual
        (posiblesConexiones db origen destino) with
    | .error e => .error e
    | .ok found =>
      if found.isEmpty then
        .error (.notFound "No se encontraron combinaciones de conexiones posibles.")
      else sortConexiones found

-- ### The direct-trip query (`get_horarios_directos`)

/-- Membership of a trip row in the joined query
    `Horario ⋈ Recorrido ⋈ Linea` filtered by origin, destination and
    day-type (the joins are inner, so the owning route and line must exist). -/
def directMatches (db : DB) (o d tipo : PyStr) (h : Horario) : Bool :=
  (db.recorridos.any (fun r =>
    r.id == h.recorrido_id && r.origen == o && r.destino == d &&
      db.lineas.any (fun l => l.id == r.linea_id))) &&
    h.tipo_dia == tipo

/-- The response dict built for one matching trip.  Under the inner join the
    route (and its line) always exist; the orphan branches mirror the
    handler's `if horario.recorrido else None` guards. -/
def mkHorarioOut (db : DB) (h : Horario) : HorarioOut :=
  match db.recorridos.find? (fun r => r.id == h.recorrido_id) with
  | some r =>
    ⟨h.id, h.tipo_dia, h.hora_salida, h.hora_llegada, h.recorrido_id, h.directo,
      some r.origen, some r.destino,
      (db.lineas.find? (fun l => l.id == r.linea_id)).map (fun l => l.nombre)⟩
  | none =>
    ⟨h.id, h.tipo_dia, h.hora_salida, h.hora_llegada, h.recorrido_id, h.directo,
      none, none, none⟩

/-- The `horarios_filtrados` loop: keep trips departing at or after
    `min_actual`; a `str_to_minutos` failure on a stored time is an uncaught
    `ValueError` (server fault). -/
def filterDirect (db : DB) (min_actual : Int) :
    List Horario → Except ApiError (List HorarioOut)
  | [] => .ok []
  | h :: rest =>
    match time_to_minutes? h.hora_salida with
    | none => .error .serverError
    | some sa => do
      let more ← filterDirect db min_actual rest
      .ok (if min_actual ≤ sa then mkHorarioOut db h :: more else more)

/-- `GET /horarios-directos/` (`get_horarios_directos`, `src/main.py`
    306–377). -/
def get_horarios_directos (db : DB) (origen destino tipo_dia hora_actual : PyStr) :
    Except ApiError (List HorarioOut) :=
  match parseHoraActual? hora_actual with
  | none => .error (.badRequest "hora_actual debe ser HH:MM entre 00:00 y 23:59")
  | some min_actual =>
    let horarios_completos :=
      List.insertionSort hsRel
        (db.horarios.filter (directMatches db origen destino tipo_dia))
    if horarios_completos.isEmpty then
      .error (.notFound (String.mk
        ("No existe recorrido directo o no hay horarios disponibles para ".toList
          ++ origen ++ " → ".toList ++ destino ++ " en días ".toList ++ tipo_dia)))
    else
      match filterDirect db min_actual horarios_completos with
      | .error e => .error e
      | .ok outs =>
        if outs.isEmpty then
          .error (.notFound (String.mk
            ("No hay más horarios disponibles después de las ".toList
              ++ hora_actual)))
        else .ok outs

-- ### Validators (`src/utils/validators.py`) and the route CRUD handlers

/-- `calculate_trip_duration`: arrival − departure in minutes, adding a day
    when the trip crosses midnight.  `none` models a `ValueError` escaping
    `time_to_minutes`. -/
def calculate_trip_duration? (hora_salida hora_llegada : PyStr) : Option Int := do
  let salida_min ← time_to_minutes? hora_salida
  let llegada_min ← time_to_minutes? hora_llegada
  let llegada_min' := if llegada_min < salida_min then llegada_min + 24 * 60
    else llegada_min
  some (llegada_min' - salida_min)

/-- `validate_horario_duration`: 400 when the duration is under 5 or over
    600 minutes. -/
def validate_horario_duration (hora_salida hora_llegada : PyStr) :
    Except ApiError Unit :=
  match calculate_trip_duration? hora_salida hora_llegada with
  | none => .error .serverError
  | some duracion =>
    if duracion < 5 then
      .error (.badRequest "El viaje debe durar al menos 5 minutos")
    else if duracion > 600 then
      .error (.badRequest "El viaje no puede durar más de 10 horas")
    else .ok ()

/-- ASCII fragment of Python `str.lower()` (the only fragment
    `validate_origen_destino_different` can observe on ASCII city names). -/
def pyCharLower (c : Char) : Char :=
  if 65 ≤ c.toNat ∧ c.toNat ≤ 90 then Char.ofNat (c.toNat + 32) else c

def pyLower (s : PyStr) : PyStr := s.map pyCharLower

/-- `validate_origen_destino_different`: 400 when origin and destination
    coincide after `strip()` + `lower()`. -/
def validate_origen_destino_different (origen destino : PyStr) :
    Except ApiError Unit :=
  if pyLower (pyStrip origen) = pyLower (pyStrip destino) then
    .error (.badRequest "El origen y destino no pueden ser iguales")
  else .ok ()

/-- `validate_recorrido_unique`: 400 when the same origin/destination pair
    already exists on the same line.  Python's `if exclude_id:` treats `0`
    as falsy, so an exclusion id of `0` does not filter. -/
def validate_recorrido_unique (db : DB) (o d : PyStr) (linea_id : Nat)
    (exclude_id : Option Nat) : Except ApiError Unit :=
  let base : List Recorrido := db.recorridos.filter (fun r =>
    r.origen == o && r.destino == d && r.linea_id == linea_id)
  let q : List Recorrido := match exclude_id with
    | some e => if e ≠ 0 then base.filter (fun r => !(r.id == e)) else base
    | none => base
  if q.isEmpty then .ok ()
  else .error (.badRequest (String.mk
    ("Ya existe un recorrido ".toList ++ o ++ " → ".toList ++ d
      ++ " en esta línea".toList)))

/-- Request body of `POST /recorridos/` (`schemas.RecorridoCreate`). -/
structure RecorridoCreate where
  origen : PyStr
  destino : PyStr
  linea_id : Nat
deriving DecidableEq

/-- `POST /recorridos/` (`crear_recorrido`, `src/main.py` 174–189): validate
    origin ≠ destination, 404 when the line is unknown, reject duplicates,
    then insert (the store assigns a fresh id). -/
def crear_recorrido (db : DB) (rc : RecorridoCreate) :
    Except ApiError (DB × Recorrido) := do
  let _ ← validate_origen_destino_different rc.origen rc.destino
  match db.lineas.find? (fun l => l.id == rc.linea_id) with
  | none => .error (.notFound "Línea no encontrada")
  | some _ => do
    let _ ← validate_recorrido_unique db rc.origen rc.destino rc.linea_id none
    let newId := (db.recorridos.foldl (fun m r => max m r.id) 0) + 1
    let nuevo : Recorrido := ⟨newId, rc.origen, rc.destino, rc.linea_id⟩
    .ok (⟨db.lineas, db.recorridos ++ [nuevo], db.horarios⟩, nuevo)

/-- `PUT /recorridos/{id}` (`update_recorrido`, `src/main.py` 191–206):
    404 when the route is unknown, then the same two validations, then the
    in-place update. -/
def update_recorrido (db : DB) (recorrido_id : Nat) (rc : RecorridoCreate) :
    Except ApiError (DB × Recorrido) :=
  match db.recorridos.find? (fun r => r.id == recorrido_id) with
  | none => .error (.notFound "Recorrido no encontrado")
  | some _ => do
    let _ ← validate_origen_destino_different rc.origen rc.destino
    let _ ← validate_recorrido_unique db rc.origen rc.destino rc.linea_id
      (some recorrido_id)
    let actualizado : Recorrido :=
      ⟨recorrido_id, rc.origen, rc.destino, rc.linea_id⟩
    .ok (⟨db.lineas,
      db.recorridos.map (fun r => if r.id == recorrido_id then actualizado else r),
      db.horarios⟩, actualizado)

-- ### Pure description of the search under the stored-time invariant

/-- What `procA` computes when the Leg-A trip's times are well-formed. -/
def pureA (min_actual : Int) (horarios_b : List Horario) (a : Horario) :
    List Conexion :=
  if timeVal a.hora_salida < min_actual then []
  else
    match firstFeasibleB (timeVal a.hora_llegada) horarios_b with
    | none => []
    | some (b, salida_b) =>
      [⟨a.hora_salida, a.hora_llegada, b.hora_salida, b.hora_llegada,
        salida_b - timeVal a.hora_llegada⟩]

/-- The multiset of pairings `calcular_conexiones` accumulates before its
    final sort, described purely. -/
def searchResults (db : DB) (origen destino tipo : PyStr) (min_actual : Int) :
    List Conexion :=
  (posiblesConexiones db origen destino).flatMap (fun city =>
    (legTrips db origen city tipo).flatMap
      (pureA min_actual (legTrips db city destino tipo)))

theorem legTrips_subset {db : DB} {o d tipo : PyStr} {a : Horario}
    (h : a ∈ legTrips db o d tipo) : a ∈ db.horarios := by
  unfold legTrips at h
  rw [List.mem_insertionSort] at h
  exact (List.mem_filter.mp h).1

theorem legTrips_sorted (db : DB) (o d tipo : PyStr) :
    List.Sorted hsRel (legTrips db o d tipo) :=
  List.sorted_insertionSort hsRel _

theorem legTrips_sorted_timeVal {db : DB} (hdb : ValidDB db) (o d tipo : PyStr) :
    List.Pairwise (fun a b : Horario =>
      timeVal a.hora_salida ≤ timeVal b.hora_salida) (legTrips db o d tipo) := by
  refine List.Pairwise.imp_of_mem ?_ (legTrips_sorted db o d tipo)
  intro a b ha hb hr
  have hva := (hdb a (legTrips_subset ha)).1
  have hvb := (hdb b (legTrips_subset hb)).1
  exact (chLe_iff_timeVal_le hva hvb).mp hr

theorem firstFeasibleB_some {llegada_a : Int} {hb : List Horario}
    {b : Horario} {sb : Int}
    (h : firstFeasibleB llegada_a hb = some (b, sb)) :
    b ∈ hb ∧ strptime? b.hora_salida = some sb ∧ llegada_a < sb := by
  induction hb with
  | nil => simp [firstFeasibleB] at h
  | cons x rest ih =>
    unfold firstFeasibleB at h
    cases hx : strptime? x.hora_salida with
    | none =>
      simp only [hx] at h
      obtain ⟨hm, hs, hlt⟩ := ih h
      exact ⟨List.mem_cons_of_mem _ hm, hs, hlt⟩
    | some sx =>
      simp only [hx] at h
      by_cases hfe : llegada_a < sx
      · rw [if_pos hfe] at h
        injection h with h'
        injection h' with hb' hs'
        subst hb'; subst hs'
        exact ⟨List.mem_cons_self _ _, hx, hfe⟩
      · rw [if_neg hfe] at h
        obtain ⟨hm, hs, hlt⟩ := ih h
        exact ⟨List.mem_cons_of_mem _ hm, hs, hlt⟩

theorem firstFeasibleB_min {llegada_a : Int} {hb : List Horario}
    {b : Horario} {sb : Int}
    (hv : ∀ x ∈ hb, validTime x.hora_salida = true)
    (hsorted : List.Pairwise (fun a b : Horario =>
      timeVal a.hora_salida ≤ timeVal b.hora_salida) hb)
    (h : firstFeasibleB llegada_a hb = some (b, sb)) :
    sb = timeVal b.hora_salida ∧
      ∀ x ∈ hb, llegada_a < timeVal x.hora_salida → sb ≤ timeVal x.hora_salida := by
  induction hb with
  | nil => simp [firstFeasibleB] at h
  | cons y rest ih =>
    have hvy := hv y (List.mem_cons_self _ _)
    unfold firstFeasibleB at h
    simp only [strptime_of_validTime hvy] at h
    by_cases hfe : llegada_a < timeVal y.hora_salida
    · rw [if_pos hfe] at h
      injection h with h'
      injection h' with hb' hs'
      subst hb'; subst hs'
      refine ⟨rfl, ?_⟩
      intro x hx _
      rcases List.mem_cons.mp hx with rfl | hx2
      · exact le_refl _
      · exact (List.pairwise_cons.mp hsorted).1 x hx2
    · rw [if_neg hfe] at h
      have hvrest : ∀ x ∈ rest, validTime x.hora_salida = true :=
        fun x hx => hv x (List.mem_cons_of_mem _ hx)
      obtain ⟨hs, hmin⟩ := ih hvrest (List.pairwise_cons.mp hsorted).2 h
      refine ⟨hs, ?_⟩
      intro x hx hlt
      rcases List.mem_cons.mp hx with rfl | hx2
      · exact absurd hlt hfe
      · exact hmin x hx2 hlt

theorem firstFeasibleB_none {llegada_a : Int} {hb : List Horario}
    (hv : ∀ x ∈ hb, validTime x.hora_salida = true)
    (h : firstFeasibleB llegada_a hb = none) :
    ∀ x ∈ hb, ¬(llegada_a < timeVal x.hora_salida) := by
  induction hb with
  | nil => intro x hx; simp at hx
  | cons y rest ih =>
    have hvy := hv y (List.mem_cons_self _ _)
    unfold firstFeasibleB at h
    simp only [strptime_of_validTime hvy] at h
    by_cases hfe : llegada_a < timeVal y.hora_salida
    · rw [if_pos hfe] at h; simp at h
    · rw [if_neg hfe] at h
      intro x hx
      rcases List.mem_cons.mp hx with rfl | hx2
      · exact hfe
      · exact ih (fun z hz => hv z (List.mem_cons_of_mem _ hz)) h x hx2

/-- Under the stored-time invariant, `procA` cannot fault and computes
    `pureA`. -/
theorem procA_ok {min_actual : Int} {hb : List Horario} {a : Horario}
    (hs : validTime a.hora_salida = true) (hl : validTime a.hora_llegada = true) :
    procA min_actual hb a = .ok (pureA min_actual hb a) := by
  unfold procA pureA
  simp only [time_to_minutes_of_validTime hs, strptime_of_validTime hl]
  by_cases hmin : timeVal a.hora_salida < min_actual
  · rw [if_pos hmin, if_pos hmin]
  · rw [if_neg hmin, if_neg hmin]
    cases firstFeasibleB (timeVal a.hora_llegada) hb with
    | none => rfl
    | some p => cases p; rfl

theorem collectA_ok {min_actual : Int} {hb : List Horario} {ha : List Horario}
    (hv : ∀ a ∈ ha, validTime a.hora_salida = true ∧
      validTime a.hora_llegada = true) :
    collectA min_actual hb ha = .ok (ha.flatMap (pureA min_actual hb)) := by
  induction ha with
  | nil => rfl
  | cons a rest ih =>
    have hva := hv a (List.mem_cons_self _ _)
    unfold collectA
    rw [procA_ok hva.1 hva.2]
    rw [ih (fun x hx => hv x (List.mem_cons_of_mem _ hx))]
    rfl

theorem collectCities_ok {db : DB} {origen destino tipo : PyStr}
    {min_actual : Int} (hdb : ValidDB db) (cities : List PyStr) :
    collectCities db origen destino tipo min_actual cities =
      .ok (cities.flatMap (fun city =>
        (legTrips db origen city tipo).flatMap
          (pureA min_actual (legTrips db city destino tipo)))) := by
  induction cities with
  | nil => rfl
  | cons city rest ih =>
    unfold collectCities
    rw [collectA_ok (fun a hx => hdb a (legTrips_subset hx))]
    rw [ih]
    rfl

theorem pureA_mem {min_actual : Int} {hb : List Horario} {a : Horario}
    {c : Conexion} (h : c ∈ pureA min_actual hb a) :
    ¬(timeVal a.hora_salida < min_actual) ∧
      ∃ b sb, firstFeasibleB (timeVal a.hora_llegada) hb = some (b, sb) ∧
        c = ⟨a.hora_salida, a.hora_llegada, b.hora_salida, b.hora_llegada,
          sb - timeVal a.hora_llegada⟩ := by
  unfold pureA at h
  by_cases hmin : timeVal a.hora_salida < min_actual
  · rw [if_pos hmin] at h; simp at h
  · rw [if_neg hmin] at h
    cases hfb : firstFeasibleB (timeVal a.hora_llegada) hb with
    | none => simp only [hfb] at h; simp at h
    | some p =>
      obtain ⟨b, sb⟩ := p
      simp only [hfb] at h
      rw [List.mem_singleton] at h
      exact ⟨hmin, b, sb, rfl, h⟩

/-- Master provenance: every accumulated pairing is built from one stored
    Leg-A trip and one stored Leg-B trip, departs no earlier than the bound,
    and has a strictly-later Leg-B departure with the wait being the exact
    minute difference. -/
theorem searchResults_mem {db : DB} {origen destino tipo : PyStr}
    {min_actual : Int} {c : Conexion} (hdb : ValidDB db)
    (hc : c ∈ searchResults db origen destino tipo min_actual) :
    ∃ a b : Horario, a ∈ db.horarios ∧ b ∈ db.horarios ∧
      c.tramo_a_salida = a.hora_salida ∧ c.tramo_a_llegada = a.hora_llegada ∧
      c.tramo_b_salida = b.hora_salida ∧ c.tramo_b_llegada = b.hora_llegada ∧
      min_actual ≤ timeVal a.hora_salida ∧
      timeVal a.hora_llegada < timeVal b.hora_salida ∧
      c.tiempo_espera_min = timeVal b.hora_salida - timeVal a.hora_llegada := by
  unfold searchResults at hc
  rw [List.mem_flatMap] at hc
  obtain ⟨city, _, hc⟩ := hc
  rw [List.mem_flatMap] at hc
  obtain ⟨a, haA, hc⟩ := hc
  obtain ⟨hmin, b, sb, hfb, hceq⟩ := pureA_mem hc
  obtain ⟨hbB, hbs, hlt⟩ := firstFeasibleB_some hfb
  have hva := hdb a (legTrips_subset haA)
  have hvb := hdb b (legTrips_subset hbB)
  have hsb : sb = timeVal b.hora_salida := by
    rw [strptime_of_validTime hvb.1] at hbs
    injection hbs with e
    exact e.symm
  subst hceq
  subst hsb
  exact ⟨a, b, legTrips_subset haA, legTrips_subset hbB, rfl, rfl, rfl, rfl,
    not_lt.mp hmin, hlt, rfl⟩

theorem searchResults_valid_fields {db : DB} {origen destino tipo : PyStr}
    {min_actual : Int} {c : Conexion} (hdb : ValidDB db)
    (hc : c ∈ searchResults db origen destino tipo min_actual) :
    validTime c.tramo_a_salida = true ∧ validTime c.tramo_a_llegada = true ∧
      validTime c.tramo_b_salida = true ∧ validTime c.tramo_b_llegada = true := by
  obtain ⟨a, b, haM, hbM, e1, e2, e3, e4, _, _, _⟩ := searchResults_mem hdb hc
  have hva := hdb a haM
  have hvb := hdb b hbM
  rw [e1, e2, e3, e4]
  exact ⟨hva.1, hva.2, hvb.1, hvb.2⟩

theorem sortKey_eq_timeVal {c : Conexion}
    (hvc : validTime c.tramo_a_salida = true) :
    sortKey c = timeVal c.tramo_a_salida := by
  unfold sortKey
  rw [strptime_of_validTime hvc]
  rfl

theorem checkKeys_ok {l : List Conexion}
    (hv : ∀ c ∈ l, ∃ k, strptime? c.tramo_a_salida = some k) :
    ∃ ks, checkKeys l = some ks := by
  induction l with
  | nil => exact ⟨[], rfl⟩
  | cons c rest ih =>
    obtain ⟨k, hk⟩ := hv c (List.mem_cons_self _ _)
    obtain ⟨ks, hks⟩ := ih (fun x hx => hv x (List.mem_cons_of_mem _ hx))
    refine ⟨k :: ks, ?_⟩
    unfold checkKeys
    simp [hk, hks]

/-- Inversion of a successful `calcular_conexiones` call: the bound parsed,
    the accumulated pairings were non-empty, and the response is their
    stable sort by leg-A departure. -/
theorem calcular_conexiones_ok_inv {db : DB} {origen destino tipo ha : PyStr}
    {l : List Conexion} (hdb : ValidDB db)
    (hok : calcular_conexiones db origen destino tipo ha = .ok l) :
    ∃ v, parseHoraActual? ha = some v ∧
      searchResults db origen destino tipo v ≠ [] ∧
      l = List.insertionSort conRel (searchResults db origen destino tipo v) := by
  unfold calcular_conexiones at hok
  cases hv : parseHoraActual? ha with
  | none => rw [hv] at hok; simp at hok
  | some v =>
    simp only [hv] at hok
    rw [collectCities_ok hdb] at hok
    have hok2 : (if (searchResults db origen destino tipo v).isEmpty then
          (Except.error (ApiError.notFound
            "No se encontraron combinaciones de conexiones posibles.") :
            Except ApiError (List Conexion))
        else sortConexiones (searchResults db origen destino tipo v)) =
        Except.ok l := hok
    clear hok
    by_cases hemp : (searchResults db origen destino tipo v).isEmpty
    · rw [if_pos hemp] at hok2; simp at hok2
    · rw [if_neg hemp] at hok2
      have hne : searchResults db origen destino tipo v ≠ [] := by
        intro he
        rw [he] at hemp
        exact hemp rfl
      obtain ⟨ks, hks⟩ := checkKeys_ok
        (fun c hc => ⟨timeVal c.tramo_a_salida,
          strptime_of_validTime (searchResults_valid_fields hdb hc).1⟩)
      unfold sortConexiones at hok2
      rw [hks] at hok2
      injection hok2 with he
      exact ⟨v, rfl, hne, he.symm⟩

/-- The 404 outcome happens exactly on an empty accumulation (and a
    non-empty accumulation always yields a successful response). -/
theorem calcular_conexiones_notFound_iff {db : DB} {origen destino tipo ha : PyStr}
    {v : Int} (hdb : ValidDB db) (hv : parseHoraActual? ha = some v) :
    (calcular_conexiones db origen destino tipo ha =
        .error (.notFound "No se encontraron combinaciones de conexiones posibles.")
      ↔ searchResults db origen destino tipo v = []) ∧
    (searchResults db origen destino tipo v ≠ [] →
      calcular_conexiones db origen destino tipo ha =
        .ok (List.insertionSort conRel (searchResults db origen destino tipo v))) := by
  have hbody : calcular_conexiones db origen destino tipo ha =
      (if (searchResults db origen destino tipo v).isEmpty then
        .error (.notFound "No se encontraron combinaciones de conexiones posibles.")
      else sortConexiones (searchResults db origen destino tipo v)) := by
    unfold calcular_conexiones
    simp only [hv]
    rw [collectCities_ok hdb]
    rfl
  constructor
  · constructor
    · intro h
      by_cases hemp : (searchResults db origen destino tipo v).isEmpty
      · cases hres : searchResults db origen destino tipo v with
        | nil => rfl
        | cons x xs => rw [hres] at hemp; simp at hemp
      · rw [hbody, if_neg hemp] at h
        obtain ⟨ks, hks⟩ := checkKeys_ok
          (fun c hc => ⟨timeVal c.tramo_a_salida,
            strptime_of_validTime (searchResults_valid_fields hdb hc).1⟩)
        unfold sortConexiones at h
        rw [hks] at h
        simp at h
    · intro h
      rw [hbody, h]
      rfl
  · intro hne
    have hemp : (searchResults db origen destino tipo v).isEmpty = false := by
      cases hres : searchResults db origen destino tipo v with
      | nil => exact absurd hres hne
      | cons x xs => rfl
    rw [hbody, hemp]
    simp only [Bool.false_eq_true, if_false]
    obtain ⟨ks, hks⟩ := checkKeys_ok
      (fun c hc => ⟨timeVal c.tramo_a_salida,
        strptime_of_validTime (searchResults_valid_fields hdb hc).1⟩)
    unfold sortConexiones
    rw [hks]

-- ### Lemmas about the direct-trip query

theorem mkHorarioOut_hora_salida (db : DB) (h : Horario) :
    (mkHorarioOut db h).hora_salida = h.hora_salida := by
  unfold mkHorarioOut
  split <;> rfl

theorem filterDirect_mem {db : DB} {min_actual : Int} {l : List Horario}
    {outs : List HorarioOut} (h : filterDirect db min_actual l = .ok outs) :
    ∀ y ∈ outs, ∃ g ∈ l, y = mkHorarioOut db g ∧
      ∃ sa, time_to_minutes? g.hora_salida = some sa ∧ min_actual ≤ sa := by
  induction l generalizing outs with
  | nil =>
    have h2 : (Except.ok [] : Except ApiError (List HorarioOut)) = .ok outs := h
    injection h2 with he
    subst he
    intro y hy
    simp at hy
  | cons g rest ih =>
    unfold filterDirect at h
    cases hsa : time_to_minutes? g.hora_salida with
    | none =>
      simp only [hsa] at h
      exact absurd h (by simp)
    | some sa =>
      simp only [hsa] at h
      cases hrest : filterDirect db min_actual rest with
      | error e =>
        rw [hrest] at h
        have h2 : (Except.error e : Except ApiError (List HorarioOut)) = .ok outs := h
        exact absurd h2 (by simp)
      | ok more =>
        rw [hrest] at h
        have h2 : (Except.ok
            (if min_actual ≤ sa then mkHorarioOut db g :: more else more) :
            Except ApiError (List HorarioOut)) = .ok outs := h
        injection h2 with he
        subst he
        intro y hy
        by_cases hcmp : min_actual ≤ sa
        · rw [if_pos hcmp] at hy
          rcases List.mem_cons.mp hy with rfl | hy2
          · exact ⟨g, List.mem_cons_self _ _, rfl, sa, hsa, hcmp⟩
          · obtain ⟨g', hg', hyeq, hsa'⟩ := ih hrest y hy2
            exact ⟨g', List.mem_cons_of_mem _ hg', hyeq, hsa'⟩
        · rw [if_neg hcmp] at hy
          obtain ⟨g', hg', hyeq, hsa'⟩ := ih hrest y hy
          exact ⟨g', List.mem_cons_of_mem _ hg', hyeq, hsa'⟩

theorem filterDirect_sorted {db : DB} {min_actual : Int} {l : List Horario}
    {outs : List HorarioOut}
    (hv : ∀ g ∈ l, validTime g.hora_salida = true)
    (hp : List.Pairwise (fun a b : Horario =>
      timeVal a.hora_salida ≤ timeVal b.hora_salida) l)
    (h : filterDirect db min_actual l = .ok outs) :
    List.Pairwise (fun x y : HorarioOut =>
      timeVal x.hora_salida ≤ timeVal y.hora_salida) outs := by
  induction l generalizing outs with
  | nil =>
    have h2 : (Except.ok [] : Except ApiError (List HorarioOut)) = .ok outs := h
    injection h2 with he
    subst he
    exact List.Pairwise.nil
  | cons g rest ih =>
    obtain ⟨hpg, hprest⟩ := List.pairwise_cons.mp hp
    have hvrest : ∀ x ∈ rest, validTime x.hora_salida = true :=
      fun x hx => hv x (List.mem_cons_of_mem _ hx)
    unfold filterDirect at h
    cases hsa : time_to_minutes? g.hora_salida with
    | none =>
      simp only [hsa] at h
      exact absurd h (by simp)
    | some sa =>
      simp only [hsa] at h
      cases hrest : filterDirect db min_actual rest with
      | error e =>
        rw [hrest] at h
        have h2 : (Except.error e : Except ApiError (List HorarioOut)) = .ok outs := h
        exact absurd h2 (by simp)
      | ok more =>
        rw [hrest] at h
        have h2 : (Except.ok
            (if min_actual ≤ sa then mkHorarioOut db g :: more else more) :
            Except ApiError (List HorarioOut)) = .ok outs := h
        injection h2 with he
        subst he
        have hmore := ih hvrest hprest hrest
        by_cases hcmp : min_actual ≤ sa
        · rw [if_pos hcmp]
          refine List.pairwise_cons.mpr ⟨?_, hmore⟩
          intro y hy
          obtain ⟨g', hg', hyeq, _⟩ := filterDirect_mem hrest y hy
          rw [hyeq, mkHorarioOut_hora_salida, mkHorarioOut_hora_salida]
          exact hpg g' hg'
        · rw [if_neg hcmp]
          exact hmore

/-- Inversion of a successful `get_horarios_directos` call. -/
theorem get_horarios_directos_ok_inv {db : DB} {origen destino tipo ha : PyStr}
    {l : List HorarioOut}
    (hok : get_horarios_directos db origen destino tipo ha = .ok l) :
    ∃ v, parseHoraActual? ha = some v ∧
      filterDirect db v (List.insertionSort hsRel
        (db.horarios.filter (directMatches db origen destino tipo))) = .ok l := by
  unfold get_horarios_directos at hok
  cases hv : parseHoraActual? ha with
  | none => rw [hv] at hok; simp at hok
  | some v =>
    simp only [hv] at hok
    by_cases hemp : (List.insertionSort hsRel
        (db.horarios.filter (directMatches db origen destino tipo))).isEmpty
    · rw [if_pos hemp] at hok
      exact absurd hok (by simp)
    · rw [if_neg hemp] at hok
      cases hfd : filterDirect db v (List.insertionSort hsRel
          (db.horarios.filter (directMatches db origen destino tipo))) with
      | error e => rw [hfd] at hok; exact absurd hok (by simp)
      | ok outs =>
        rw [hfd] at hok
        have hok2 : (if outs.isEmpty then
            (Except.error (ApiError.notFound (String.mk
              ("No hay más horarios disponibles después de las ".toList ++ ha))) :
              Except ApiError (List HorarioOut))
          else Except.ok outs) = Except.ok l := hok
        clear hok
        by_cases hoe : outs.isEmpty
        · rw [if_pos hoe] at hok2
          exact absurd hok2 (by simp)
        · rw [if_neg hoe] at hok2
          injection hok2 with he
          subst he
          exact ⟨v, rfl, hfd⟩

-- ### Concrete fixtures for witnesses and counterexamples

def wA : PyStr := "A".toList

def wX : PyStr := "X".toList

def wY : PyStr := "Y".toList

def wB : PyStr := "B".toList

def wHabil : PyStr := "habil".toList

/-- One line, routes A→X and X→B, trips 07:00→07:40 (A→X) and
    07:30→08:10, 08:00→08:40 (X→B) — the spec's worked scenario with
    abbreviated city names. -/
def wDB : DB :=
  ⟨[⟨1, "L1".toList⟩],
   [⟨1, wA, wX, 1⟩, ⟨2, wX, wB, 1⟩],
   [⟨1, wHabil, "07:00".toList, "07:40".toList, 1, false⟩,
    ⟨2, wHabil, "07:30".toList, "08:10".toList, 2, false⟩,
    ⟨3, wHabil, "08:00".toList, "08:40".toList, 2, false⟩]⟩

/-- The same dataset with the intermediate city renamed X→Y and the line
    renamed L1→L2. -/
def wDBY : DB :=
  ⟨[⟨1, "L2".toList⟩],
   [⟨1, wA, wY, 1⟩, ⟨2, wY, wB, 1⟩],
   [⟨1, wHabil, "07:00".toList, "07:40".toList, 1, false⟩,
    ⟨2, wHabil, "07:30".toList, "08:10".toList, 2, false⟩,
    ⟨3, wHabil, "08:00".toList, "08:40".toList, 2, false⟩]⟩

def wC : Conexion :=
  ⟨"07:00".toList, "07:40".toList, "08:00".toList, "08:40".toList, 20⟩

def wOut : List Conexion := [wC]

/-- Routes A→X and X→B with trips 10:00→10:40 and 11:00→11:40. -/
def wDBlate : DB :=
  ⟨[⟨1, "L1".toList⟩],
   [⟨1, wA, wX, 1⟩, ⟨2, wX, wB, 1⟩],
   [⟨1, wHabil, "10:00".toList, "10:40".toList, 1, false⟩,
    ⟨2, wHabil, "11:00".toList, "11:40".toList, 2, false⟩]⟩

def wOutLate : List Conexion :=
  [⟨"10:00".toList, "10:40".toList, "11:00".toList, "11:40".toList, 20⟩]

-- ### Duration validation (claim C3)

/-- The duration formula the spec states: arrival − departure in minutes,
    adding 1440 when the arrival is numerically before the departure. -/
def specDuration (salida llegada : Int) : Int :=
  if llegada < salida then llegada + 1440 - salida else llegada - salida

theorem calculate_trip_duration_of_valid {hs hl : PyStr}
    (h1 : validTime hs = true) (h2 : validTime hl = true) :
    calculate_trip_duration? hs hl =
      some (specDuration (timeVal hs) (timeVal hl)) := by
  unfold calculate_trip_duration? specDuration
  rw [time_to_minutes_of_validTime h1, time_to_minutes_of_validTime h2]
  simp only [Option.bind_eq_bind, Option.some_bind]
  by_cases hw : timeVal hl < timeVal hs
  · simp only [if_pos hw]
    norm_num
  · simp only [if_neg hw]

/-- C3: for well-formed `HH:MM` departure/arrival strings,
    `validate_horario_duration` computes the midnight-wrapping duration and
    rejects with the 400 errors exactly when it is under 5 or over 600
    minutes. -/
theorem C3_duration_validation {hs hl : PyStr}
    (h1 : validTime hs = true) (h2 : validTime hl = true) :
    (validate_horario_duration hs hl = .ok () ↔
      5 ≤ specDuration (timeVal hs) (timeVal hl) ∧
        specDuration (timeVal hs) (timeVal hl) ≤ 600) ∧
    (specDuration (timeVal hs) (timeVal hl) < 5 →
      validate_horario_duration hs hl =
        .error (.badRequest "El viaje debe durar al menos 5 minutos")) ∧
    (600 < specDuration (timeVal hs) (timeVal hl) →
      validate_horario_duration hs hl =
        .error (.badRequest "El viaje no puede durar más de 10 horas")) := by
  have hred : validate_horario_duration hs hl =
      (if specDuration (timeVal hs) (timeVal hl) < 5 then
        .error (.badRequest "El viaje debe durar al menos 5 minutos")
      else if specDuration (timeVal hs) (timeVal hl) > 600 then
        .error (.badRequest "El viaje no puede durar más de 10 horas")
      else .ok ()) := by
    unfold validate_horario_duration
    rw [calculate_trip_duration_of_valid h1 h2]
  rw [hred]
  by_cases hlt : specDuration (timeVal hs) (timeVal hl) < 5
  · rw [if_pos hlt]
    refine ⟨?_, fun _ => rfl, fun hgt => absurd hlt (by omega)⟩
    constructor
    · intro he; exact absurd he (by simp)
    · intro hr; omega
  · rw [if_neg hlt]
    by_cases hgt : specDuration (timeVal hs) (timeVal hl) > 600
    · rw [if_pos hgt]
      refine ⟨?_, fun h5 => absurd h5 (by omega), fun _ => rfl⟩
      constructor
      · intro he; exact absurd he (by simp)
      · intro hr; omega
    · rw [if_neg hgt]
      exact ⟨⟨fun _ => by omega, fun _ => rfl⟩,
        fun h5 => absurd h5 (by omega), fun h6 => absurd h6 (by omega)⟩

/-- Witness for C3: `23:50 → 00:20` (duration 30 after the wrap) passes,
    `08:00 → 08:03` (duration 3) fails with the too-short error. -/
theorem C3_duration_validation_witness :
    validate_horario_duration "23:50".toList "00:20".toList = .ok () ∧
    validate_horario_duration "08:00".toList "08:03".toList =
      .error (.badRequest "El viaje debe durar al menos 5 minutos") := by
  constructor
  · exact (@C3_duration_validation ("23:50".toList) ("00:20".toList)
      (by decide) (by decide)).1.mpr (by decide)
  · exact (@C3_duration_validation ("08:00".toList) ("08:03".toList)
      (by decide) (by decide)).2.1 (by decide)

-- ### `hora_actual` validation (claim C5)

/-- Counterexample to C5 as stated: the non-zero-padded `"9:05"` is NOT
    rejected — it parses to 545 minutes (Python `int("9")` needs no zero
    padding) and the connection endpoint answers 200 with it. -/
theorem C5_zero_padding_counterexample :
    parseHoraActual? "9:05".toList = some 545 ∧
    calcular_conexiones wDBlate wA wB wHabil "9:05".toList = .ok wOutLate := by
  constructor
  · decide
  · rfl

/-- C5 amended: `hora_actual` validation fails with the 400 error unless the
    string is two colon-separated Python integer literals with hour in
    [0, 23] and minute in [0, 59]; zero padding is not required, so
    `"9:05"` is accepted.  (Both endpoints share the check.) -/
theorem C5_time_validation_amended :
    (∀ (db : DB) (origen destino tipo s : PyStr), parseHoraActual? s = none →
      calcular_conexiones db origen destino tipo s =
        .error (.badRequest "hora_actual debe ser HH:MM entre 00:00 y 23:59")) ∧
    (∀ (db : DB) (origen destino tipo s : PyStr), parseHoraActual? s = none →
      get_horarios_directos db origen destino tipo s =
        .error (.badRequest "hora_actual debe ser HH:MM entre 00:00 y 23:59")) ∧
    (∀ (s : PyStr) (v : Int), parseHoraActual? s = some v →
      ∃ p0 p1 hr mn, splitOnC ':' s = [p0, p1] ∧ pyInt? p0 = some hr ∧
        pyInt? p1 = some mn ∧ 0 ≤ hr ∧ hr ≤ 23 ∧ 0 ≤ mn ∧ mn ≤ 59 ∧
        v = hr * 60 + mn) := by
  refine ⟨?_, ?_, ?_⟩
  · intro db o d t s hn
    unfold calcular_conexiones
    rw [hn]
  · intro db o d t s hn
    unfold get_horarios_directos
    rw [hn]
  · intro s v hv
    exact parseHoraActual_inv hv

/-- Witness for the amended C5: `"25:00"` is rejected with the 400 error,
    and the accepted `"9:05"` has the stated two-integer shape. -/
theorem C5_time_validation_amended_witness :
    calcular_conexiones wDB wA wB wHabil "25:00".toList =
      .error (.badRequest "hora_actual debe ser HH:MM entre 00:00 y 23:59") ∧
    (∃ p0 p1 hr mn, splitOnC ':' ("9:05".toList) = [p0, p1] ∧
      pyInt? p0 = some hr ∧ pyInt? p1 = some mn ∧ 0 ≤ hr ∧ hr ≤ 23 ∧
      0 ≤ mn ∧ mn ≤ 59 ∧ (545 : Int) = hr * 60 + mn) :=
  ⟨C5_time_validation_amended.1 wDB wA wB wHabil "25:00".toList (by decide),
   C5_time_validation_amended.2.2 "9:05".toList 545 (by decide)⟩

-- ### Route endpoint normalisation (claim C9)

/-- C9: creating or updating a route whose origin and destination coincide
    after `strip()` + `lower()` is rejected with the 400 error (for updates,
    once the route id resolves). -/
theorem C9_normalized_equal_endpoints_rejected {db : DB} {o d : PyStr}
    {lid : Nat} (heq : pyLower (pyStrip o) = pyLower (pyStrip d)) :
    crear_recorrido db ⟨o, d, lid⟩ =
      .error (.badRequest "El origen y destino no pueden ser iguales") ∧
    (∀ rid r0, db.recorridos.find? (fun r => r.id == rid) = some r0 →
      update_recorrido db rid ⟨o, d, lid⟩ =
        .error (.badRequest "El origen y destino no pueden ser iguales")) := by
  have hval : validate_origen_destino_different o d =
      .error (.badRequest "El origen y destino no pueden ser iguales") := by
    unfold validate_origen_destino_different
    rw [if_pos heq]
  constructor
  · unfold crear_recorrido
    rw [hval]
    rfl
  · intro rid r0 hfind
    unfold update_recorrido
    rw [hfind, hval]
    rfl

/-- Witness for C9: `"Leales"` vs `" leales "` — literally different
    strings, yet both creation and update are rejected. -/
theorem C9_normalized_equal_endpoints_rejected_witness :
    "Leales".toList ≠ " leales ".toList ∧
    crear_recorrido wDB ⟨"Leales".toList, " leales ".toList, 1⟩ =
      .error (.badRequest "El origen y destino no pueden ser iguales") ∧
    update_recorrido wDB 1 ⟨"Leales".toList, " leales ".toList, 1⟩ =
      .error (.badRequest "El origen y destino no pueden ser iguales") := by
  refine ⟨by decide, ?_, ?_⟩
  · exact (@C9_normalized_equal_endpoints_rejected wDB ("Leales".toList)
      (" leales ".toList) 1 (by decide)).1
  · exact (@C9_normalized_equal_endpoints_rejected wDB ("Leales".toList)
      (" leales ".toList) 1 (by decide)).2 1 ⟨1, wA, wX, 1⟩ (by decide)

-- ### Connection-search claims

theorem wDB_valid : ValidDB wDB := by
  unfold ValidDB
  decide

theorem wDBlate_valid : ValidDB wDBlate := by
  unfold ValidDB
  decide

/-- C1: every returned pairing has the leg-B departure strictly after the
    leg-A arrival (same-day wall-clock), and the reported wait equals
    leg-B departure − leg-A arrival in minutes. -/
theorem C1_pairings_feasible_and_wait_exact {db : DB}
    {origen destino tipo ha : PyStr} {l : List Conexion} (hdb : ValidDB db)
    (hok : calcular_conexiones db origen destino tipo ha = .ok l) :
    ∀ c ∈ l, timeVal c.tramo_a_llegada < timeVal c.tramo_b_salida ∧
      c.tiempo_espera_min =
        timeVal c.tramo_b_salida - timeVal c.tramo_a_llegada := by
  obtain ⟨v, _, _, hl⟩ := calcular_conexiones_ok_inv hdb hok
  subst hl
  intro c hc
  rw [List.mem_insertionSort] at hc
  obtain ⟨a, b, _, _, e1, e2, e3, e4, _, hlt, hw⟩ := searchResults_mem hdb hc
  rw [e2, e3]
  exact ⟨hlt, hw⟩

/-- Witness for C1 at the spec's worked scenario. -/
theorem C1_pairings_feasible_and_wait_exact_witness :
    timeVal wC.tramo_a_llegada < timeVal wC.tramo_b_salida ∧
      wC.tiempo_espera_min =
        timeVal wC.tramo_b_salida - timeVal wC.tramo_a_llegada :=
  @C1_pairings_feasible_and_wait_exact wDB wA wB wHabil ("00:00".toList) wOut
    wDB_valid rfl wC (by decide)

/-- C2: per candidate city, a leg-A trip at or after the bound yields at
    most one pairing — the earliest leg-B departure strictly after its
    arrival — and a leg-A trip before the bound yields none. -/
theorem C2_at_most_one_pairing_per_legA {db : DB} {city destino tipo : PyStr}
    {min_actual : Int} {a : Horario} (hdb : ValidDB db)
    (haM : a ∈ db.horarios) :
    ∃ cs, procA min_actual (legTrips db city destino tipo) a = .ok cs ∧
      cs.length ≤ 1 ∧
      (timeVal a.hora_salida < min_actual → cs = []) ∧
      (∀ c ∈ cs, min_actual ≤ timeVal a.hora_salida ∧
        timeVal a.hora_llegada < timeVal c.tramo_b_salida ∧
        (∃ b ∈ legTrips db city destino tipo,
          c.tramo_b_salida = b.hora_salida) ∧
        (∀ b ∈ legTrips db city destino tipo,
          timeVal a.hora_llegada < timeVal b.hora_salida →
            timeVal c.tramo_b_salida ≤ timeVal b.hora_salida)) ∧
      (min_actual ≤ timeVal a.hora_salida →
        (∃ b ∈ legTrips db city destino tipo,
          timeVal a.hora_llegada < timeVal b.hora_salida) → cs ≠ []) := by
  have hva := hdb a haM
  have hvb : ∀ x ∈ legTrips db city destino tipo, validTime x.hora_salida = true :=
    fun x hx => (hdb x (legTrips_subset hx)).1
  have hsorted := legTrips_sorted_timeVal hdb city destino tipo
  by_cases hmin : timeVal a.hora_salida < min_actual
  · have hcs : pureA min_actual (legTrips db city destino tipo) a = [] := by
      unfold pureA
      rw [if_pos hmin]
    refine ⟨[], ?_, by simp, fun _ => rfl, ?_, ?_⟩
    · rw [procA_ok hva.1 hva.2, hcs]
    · intro c hc
      simp at hc
    · intro hge _
      exact absurd hmin (not_lt.mpr hge)
  · cases hfb : firstFeasibleB (timeVal a.hora_llegada)
        (legTrips db city destino tipo) with
    | none =>
      have hcs : pureA min_actual (legTrips db city destino tipo) a = [] := by
        unfold pureA
        rw [if_neg hmin]
        simp only [hfb]
      refine ⟨[], ?_, by simp, fun _ => rfl, ?_, ?_⟩
      · rw [procA_ok hva.1 hva.2, hcs]
      · intro c hc
        simp at hc
      · rintro _ ⟨b, hbM, hfe⟩ _
        exact firstFeasibleB_none hvb hfb b hbM hfe
    | some p =>
      obtain ⟨b, sb⟩ := p
      obtain ⟨hbM, hbs, hlt⟩ := firstFeasibleB_some hfb
      obtain ⟨hsb, hminimal⟩ := firstFeasibleB_min hvb hsorted hfb
      subst hsb
      have hcs : pureA min_actual (legTrips db city destino tipo) a =
          [⟨a.hora_salida, a.hora_llegada, b.hora_salida, b.hora_llegada,
            timeVal b.hora_salida - timeVal a.hora_llegada⟩] := by
        unfold pureA
        rw [if_neg hmin]
        simp only [hfb]
      refine ⟨[⟨a.hora_salida, a.hora_llegada, b.hora_salida, b.hora_llegada,
        timeVal b.hora_salida - timeVal a.hora_llegada⟩], ?_, ?_,
        fun hlt' => absurd hlt' hmin, ?_, ?_⟩
      · rw [procA_ok hva.1 hva.2, hcs]
      · simp
      · intro c hc
        rw [List.mem_singleton] at hc
        subst hc
        exact ⟨not_lt.mp hmin, hlt, ⟨b, hbM, rfl⟩, fun b' hb' hfe' => hminimal b' hb' hfe'⟩
      · intro _ _
        simp

def wH1 : Horario := ⟨1, wHabil, "07:00".toList, "07:40".toList, 1, false⟩

/-- Witness for C2 at the spec's worked scenario: the 07:00 leg-A trip in
    candidate city X. -/
theorem C2_at_most_one_pairing_per_legA_witness :
    ∃ cs, procA 0 (legTrips wDB wX wB wHabil) wH1 = .ok cs ∧
      cs.length ≤ 1 ∧
      (timeVal wH1.hora_salida < 0 → cs = []) ∧
      (∀ c ∈ cs, (0 : Int) ≤ timeVal wH1.hora_salida ∧
        timeVal wH1.hora_llegada < timeVal c.tramo_b_salida ∧
        (∃ b ∈ legTrips wDB wX wB wHabil,
          c.tramo_b_salida = b.hora_salida) ∧
        (∀ b ∈ legTrips wDB wX wB wHabil,
          timeVal wH1.hora_llegada < timeVal b.hora_salida →
            timeVal c.tramo_b_salida ≤ timeVal b.hora_salida)) ∧
      ((0 : Int) ≤ timeVal wH1.hora_salida →
        (∃ b ∈ legTrips wDB wX wB wHabil,
          timeVal wH1.hora_llegada < timeVal b.hora_salida) → cs ≠ []) :=
  @C2_at_most_one_pairing_per_legA wDB wX wB wHabil 0 wH1 wDB_valid (by decide)

/-- C4: every trip returned by the direct query departs at or after the
    parsed lower bound, and the sequence is sorted ascending by departure
    time-of-day. -/
theorem C4_direct_lower_bound_and_sorted {db : DB}
    {origen destino tipo ha : PyStr} {l : List HorarioOut} (hdb : ValidDB db)
    (hok : get_horarios_directos db origen destino tipo ha = .ok l) :
    (∃ v, parseHoraActual? ha = some v ∧
      ∀ x ∈ l, v ≤ timeVal x.hora_salida) ∧
    List.Sorted (fun x y : HorarioOut =>
      timeVal x.hora_salida ≤ timeVal y.hora_salida) l := by
  obtain ⟨v, hv, hfd⟩ := get_horarios_directos_ok_inv hok
  have hvc : ∀ g ∈ List.insertionSort hsRel
      (db.horarios.filter (directMatches db origen destino tipo)),
      validTime g.hora_salida = true := by
    intro g hg
    rw [List.mem_insertionSort, List.mem_filter] at hg
    exact (hdb g hg.1).1
  have hpc : List.Pairwise (fun a b : Horario =>
      timeVal a.hora_salida ≤ timeVal b.hora_salida)
      (List.insertionSort hsRel
        (db.horarios.filter (directMatches db origen destino tipo))) := by
    refine List.Pairwise.imp_of_mem ?_ (List.sorted_insertionSort hsRel _)
    intro x y hx hy hr
    exact (chLe_iff_timeVal_le (hvc x hx) (hvc y hy)).mp hr
  constructor
  · refine ⟨v, hv, ?_⟩
    intro x hx
    obtain ⟨g, hg, hxeq, sa, hsa, hle⟩ := filterDirect_mem hfd x hx
    rw [time_to_minutes_of_validTime (hvc g hg)] at hsa
    injection hsa with he
    subst he
    rw [hxeq, mkHorarioOut_hora_salida]
    exact hle
  · exact filterDirect_sorted hvc hpc hfd

def wDirOut : List HorarioOut :=
  [⟨1, wHabil, "07:00".toList, "07:40".toList, 1, false,
    some wA, some wX, some ("L1".toList)⟩]

/-- Witness for C4. -/
theorem C4_direct_lower_bound_and_sorted_witness :
    (∃ v, parseHoraActual? "00:00".toList = some v ∧
      ∀ x ∈ wDirOut, v ≤ timeVal x.hora_salida) ∧
    List.Sorted (fun x y : HorarioOut =>
      timeVal x.hora_salida ≤ timeVal y.hora_salida) wDirOut :=
  @C4_direct_lower_bound_and_sorted wDB wA wX wHabil ("00:00".toList) wDirOut
    wDB_valid rfl

/-- Counterexample to C6 as stated: the `Conexion` response schema declares
    no city or line-name fields, so two datasets that differ only in the
    intermediate city's name and the line's name produce identical
    responses — the returned pairings cannot carry those names. -/
theorem C6_names_dropped_counterexample :
    calcular_conexiones wDB wA wB wHabil "00:00".toList =
      calcular_conexiones wDBY wA wB wHabil "00:00".toList ∧
    wX ≠ wY ∧ ("L1".toList : PyStr) ≠ "L2".toList ∧
    calcular_conexiones wDB wA wB wHabil "00:00".toList = .ok wOut :=
  ⟨rfl, by decide, by decide, rfl⟩

/-- C6 amended: every returned pairing carries exactly the leg-A
    departure/arrival, leg-B departure/arrival and the wait in minutes of a
    pair of stored trips; the candidate city's name and the lines' names,
    though passed at construction, are dropped by the response schema. -/
theorem C6_amended_pairing_fields {db : DB} {origen destino tipo ha : PyStr}
    {l : List Conexion} (hdb : ValidDB db)
    (hok : calcular_conexiones db origen destino tipo ha = .ok l) :
    ∀ c ∈ l, ∃ a b : Horario, a ∈ db.horarios ∧ b ∈ db.horarios ∧
      c = ⟨a.hora_salida, a.hora_llegada, b.hora_salida, b.hora_llegada,
        timeVal b.hora_salida - timeVal a.hora_llegada⟩ := by
  obtain ⟨v, _, _, hl⟩ := calcular_conexiones_ok_inv hdb hok
  subst hl
  intro c hc
  rw [List.mem_insertionSort] at hc
  obtain ⟨a, b, haM, hbM, e1, e2, e3, e4, _, _, hw⟩ := searchResults_mem hdb hc
  refine ⟨a, b, haM, hbM, ?_⟩
  have heta : c = ⟨c.tramo_a_salida, c.tramo_a_llegada, c.tramo_b_salida,
      c.tramo_b_llegada, c.tiempo_espera_min⟩ := rfl
  rw [heta, e1, e2, e3, e4, hw]

/-- Witness for the amended C6. -/
theorem C6_amended_pairing_fields_witness :
    ∃ a b : Horario, a ∈ wDB.horarios ∧ b ∈ wDB.horarios ∧
      wC = ⟨a.hora_salida, a.hora_llegada, b.hora_salida, b.hora_llegada,
        timeVal b.hora_salida - timeVal a.hora_llegada⟩ :=
  @C6_amended_pairing_fields wDB wA wB wHabil ("00:00".toList) wOut
    wDB_valid rfl wC (by decide)

/-- C7: with a valid bound, the search answers the 404 "no connections"
    error exactly when the day-type/bound filtering finds zero pairings
    across all candidate cities; when at least one pairing exists it
    returns a non-empty list. -/
theorem C7_notFound_iff_zero_pairings {db : DB}
    {origen destino tipo ha : PyStr} {v : Int} (hdb : ValidDB db)
    (hv : parseHoraActual? ha = some v) :
    (calcular_conexiones db origen destino tipo ha =
        .error (.notFound "No se encontraron combinaciones de conexiones posibles.")
      ↔ searchResults db origen destino tipo v = []) ∧
    (searchResults db origen destino tipo v ≠ [] →
      ∃ l, calcular_conexiones db origen destino tipo ha = .ok l ∧ l ≠ []) := by
  obtain ⟨hiff, hok⟩ := calcular_conexiones_notFound_iff hdb hv
  refine ⟨hiff, fun hne => ⟨_, hok hne, ?_⟩⟩
  intro hnil
  have hperm := List.perm_insertionSort conRel
    (searchResults db origen destino tipo v)
  rw [hnil] at hperm
  exact hne hperm.symm.eq_nil

/-- Witness for C7 at the spec's worked scenario (one pairing exists). -/
theorem C7_notFound_iff_zero_pairings_witness :
    ((calcular_conexiones wDB wA wB wHabil "00:00".toList =
        .error (.notFound "No se encontraron combinaciones de conexiones posibles.")
      ↔ searchResults wDB wA wB wHabil 0 = []) ∧
    (searchResults wDB wA wB wHabil 0 ≠ [] →
      ∃ l, calcular_conexiones wDB wA wB wHabil "00:00".toList = .ok l ∧
        l ≠ [])) :=
  @C7_notFound_iff_zero_pairings wDB wA wB wHabil ("00:00".toList) 0
    wDB_valid (by decide)

/-- C8: the returned sequence is sorted ascending by leg-A departure
    time-of-day and is a permutation of the pairings aggregated across all
    candidate cities. -/
theorem C8_sorted_by_legA_departure {db : DB} {origen destino tipo ha : PyStr}
    {l : List Conexion} (hdb : ValidDB db)
    (hok : calcular_conexiones db origen destino tipo ha = .ok l) :
    List.Sorted (fun c d : Conexion =>
      timeVal c.tramo_a_salida ≤ timeVal d.tramo_a_salida) l ∧
    ∃ v, parseHoraActual? ha = some v ∧
      l.Perm (searchResults db origen destino tipo v) := by
  obtain ⟨v, hv, _, hl⟩ := calcular_conexiones_ok_inv hdb hok
  subst hl
  constructor
  · refine List.Pairwise.imp_of_mem ?_ (List.sorted_insertionSort conRel _)
    intro c d hc hd hr
    rw [List.mem_insertionSort] at hc hd
    have hvc := (searchResults_valid_fields hdb hc).1
    have hvd := (searchResults_valid_fields hdb hd).1
    rw [← sortKey_eq_timeVal hvc, ← sortKey_eq_timeVal hvd]
    exact hr
  · exact ⟨v, hv, List.perm_insertionSort conRel _⟩

/-- Witness for C8. -/
theorem C8_sorted_by_legA_departure_witness :
    List.Sorted (fun c d : Conexion =>
      timeVal c.tramo_a_salida ≤ timeVal d.tramo_a_salida) wOut ∧
    ∃ v, parseHoraActual? "00:00".toList = some v ∧
      wOut.Perm (searchResults wDB wA wB wHabil v) :=
  @C8_sorted_by_legA_departure wDB wA wB wHabil ("00:00".toList) wOut
    wDB_valid rfl

/-- C10: every returned pairing's wait is at least one minute (times have
    whole-minute granularity and feasibility is strict). -/
theorem C10_wait_strictly_positive {db : DB} {origen destino tipo ha : PyStr}
    {l : List Conexion} (hdb : ValidDB db)
    (hok : calcular_conexiones db origen destino tipo ha = .ok l) :
    ∀ c ∈ l, 1 ≤ c.tiempo_espera_min := by
  obtain ⟨v, _, _, hl⟩ := calcular_conexiones_ok_inv hdb hok
  subst hl
  intro c hc
  rw [List.mem_insertionSort] at hc
  obtain ⟨a, b, _, _, _, _, _, _, _, hlt, hw⟩ := searchResults_mem hdb hc
  omega

/-- Witness for C10. -/
theorem C10_wait_strictly_positive_witness :
    (1 : Int) ≤ wC.tiempo_espera_min :=
  @C10_wait_strictly_positive wDB wA wB wHabil ("00:00".toList) wOut
    wDB_valid rfl wC (by decide)
